import Mathlib

/-!
Shallow embedding of the `watch-files` library (files `src/lib.rs`,
`src/watcher.rs`, `src/processor.rs`).

The library polls the filesystem for files matching a glob, tracks each
file's modification timestamp, dispatches "matured" files (files whose
modification timestamp is old enough) to a user callback, and stops
according to a `StopCondition`.  There are two dispatchers: the inline one
(`Watcher::watch`) and a worker-pool one (`Watcher::watch_threaded` together
with `Processor::process`).

Modelling decisions:
* Wall-clock instants (`Instant`, `SystemTime`) and `Duration`s are `Nat`s.
  `SystemTime::elapsed()` is fallible (it errors when the stored time is in
  the future); this is `stElapsed`, returning `Option Nat`.
* The external collaborators are environment parameters: each poll tick is a
  `Tick` carrying the wall-clock time `now` at that tick, the raw glob
  expansion (`List (Except GlobErr Path)`, matching the iterator of
  `Result<PathBuf, GlobError>` that the code runs through `.flatten()`),
  and the per-tick result of `modification_time` for each path.  The user
  callback is `Config.callback : Path → Except E T`, and the outcome of
  `std::fs::remove_file` is a function `del : Path → Bool`.
* `HashMap` is an insertion-ordered association list with unique keys
  (`alUpdate` is `HashMap::insert`: it overwrites an existing key's value or
  appends a new entry; `alLookup` is `HashMap::get`).  Claims are about
  membership and cardinality, so iteration order is irrelevant.
* `println!`/`eprintln!` output is modelled as a `List String` log produced
  alongside each state transition; `logFold` threads state and concatenates
  logs, mirroring sequential execution of an effectful loop.
* `unreachable!()` and panics are modelled as `Option`/`Except` failures.
* The worker-pool variant is a small-step system: `TState` is the shared
  state (queue behind its mutex, the two result maps with their poison
  flags, the tracker map owned by the control thread, the worker threads'
  local states), and `tstep` executes one atomic step of one thread, chosen
  by a schedule (`List Action`).  Lock-protected critical sections in the
  source are exactly the atomic steps.  Mutex poisoning (a thread panicking
  inside a critical section of a result map) is an environment event
  (`Action.panicS` / `Action.panicE`).
-/

namespace WatchFiles

/-- Filesystem paths (`PathBuf`); the claims need only equality of paths. -/
abbrev Path := String

/-- `std::io::Error` payloads, abstracted to a code. -/
abbrev IOErr := Nat

/-- Per-entry `glob::GlobError` payloads, abstracted to a code. -/
abbrev GlobErr := Nat

/-- `StopCondition` from `lib.rs`. -/
inductive StopCondition where
  /-- Looks for matching files once, stopping immediately after. -/
  | once
  /-- Continues watching until the specified number of files have been found. -/
  | filesFound (n : Nat)
  /-- Continues watching until the specified duration of time has elapsed. -/
  | elapsed (d : Nat)
  /-- Continues watching until the duration has elapsed without a new file. -/
  | noNewFilesSince (d : Nat)
deriving DecidableEq

/-- `FileStatus<T, E>` from `lib.rs`. -/
inductive FileStatus (T E : Type) where
  /-- Unable to process because a modification time could not be read. -/
  | skipped (e : IOErr)
  /-- File seen with modification time, not yet matured. -/
  | seen (t : Nat)
  /-- Multithreaded only: a thread has claimed this input. -/
  | processing
  /-- Successfully completed. -/
  | processed (t : T)
  /-- Failed to process. -/
  | errored (e : E)
deriving DecidableEq

/-- `FileResults<T, E>` from `lib.rs`. -/
structure FileResults (T E : Type) where
  skipped : List (Path × IOErr)
  not_processed : List Path
  completed : List (Path × T)
  errored : List (Path × E)
deriving DecidableEq

/-- The configuration fields of `Watcher<F>` (`watcher.rs`): the callback
and the builder-settable knobs.  The glob pattern itself is abstracted away
because the glob expansion is an environment input (each `Tick` carries it). -/
structure Config (T E : Type) where
  callback : Path → Except E T
  check_interval : Nat
  delete_on_completion : Bool
  mature_after : Nat
  verbose : Bool

/-- One poll tick's view of the outside world: the wall-clock time at the
tick, the raw glob expansion (`Result<PathBuf, GlobError>` entries), and
`modification_time` for each path at that tick. -/
structure Tick where
  now : Nat
  entries : List (Except GlobErr Path)
  mtime : Path → Except IOErr Nat

/-- `SystemTime::elapsed()` at wall-clock time `now` for a stored time `t`:
`Ok(now - t)` when `t` is not in the future, `Err` otherwise. -/
def stElapsed (now t : Nat) : Option Nat :=
  if t ≤ now then some (now - t) else none

/-- `.flatten()` over an iterator of `Result<PathBuf, GlobError>`: keeps the
`Ok` paths, silently dropping per-entry glob errors. -/
def flattenEntries : List (Except GlobErr Path) → List Path
  | [] => []
  | .ok p :: rest => p :: flattenEntries rest
  | .error _ :: rest => flattenEntries rest

/-- `HashMap::get`: first value stored under key `k`. -/
def alLookup {α : Type} (k : Path) : List (Path × α) → Option α
  | [] => none
  | (k2, v) :: rest => if k = k2 then some v else alLookup k rest

/-- `HashMap::insert`: overwrite the value under `k`, or append `(k, v)`. -/
def alUpdate {α : Type} (k : Path) (v : α) : List (Path × α) → List (Path × α)
  | [] => [(k, v)]
  | (k2, v2) :: rest =>
      if k = k2 then (k, v) :: rest else (k2, v2) :: alUpdate k v rest

/-- Run an effectful loop body `g` over a list, threading the state and
concatenating the emitted log lines in execution order. -/
def logFold {σ α : Type} (g : σ → α → σ × List String) :
    List α → σ → σ × List String
  | [], s => (s, [])
  | x :: xs, s =>
      let r := g s x
      let r2 := logFold g xs r.1
      (r2.1, r.2 ++ r2.2)

/-! ## Inline dispatcher (`Watcher::watch`) -/

/-- The mutable state of the single-threaded polling loop: the
`files_seen` tracker map and the `newest_file` high-water mark. -/
structure IState (T E : Type) where
  files : List (Path × FileStatus T E)
  newest : Nat

/-- The `match (self.callback)(file)` expression of `Watcher::watch`
(watcher.rs lines 146-165): on success with `delete_on_completion`
set, attempt the deletion (reporting the outcome only as a diagnostic) and
record `Processed`; on success otherwise record `Processed`; on failure
record `Errored`. -/
def inlineDispatch {T E : Type} (cfg : Config T E) (del : Path → Bool)
    (file : Path) : FileStatus T E × List String :=
  match cfg.callback file with
  | .ok t =>
      if cfg.delete_on_completion then
        match del file, cfg.verbose with
        | true, true => (.processed t, ["processed and deleted " ++ file])
        | false, true =>
            (.processed t, ["processed but failed to delete " ++ file])
        | _, _ => (.processed t, [])
      else (.processed t, [])
  | .error e => (.errored e, [])

/-- The `if let FileStatus::Seen(last_seen) = entry` body of
`Watcher::watch` (watcher.rs lines 131-167): refresh the stored timestamp,
raise `newest_file`, and—when `SystemTime::elapsed()` succeeds and the
elapsed duration has reached `mature_after`—dispatch the callback and store
its terminal status. -/
def inlineSeen {T E : Type} (cfg : Config T E) (del : Path → Bool)
    (now : Nat) (s : IState T E) (file : Path) (modtime : Nat) :
    IState T E × List String :=
  let files1 := alUpdate file (.seen modtime) s.files
  let newest1 := if modtime > s.newest then modtime else s.newest
  match stElapsed now modtime with
  | none => (⟨files1, newest1⟩, [])
  | some d =>
      if cfg.mature_after ≤ d then
        let r := inlineDispatch cfg del file
        (⟨alUpdate file r.1 files1, newest1⟩, r.2)
      else (⟨files1, newest1⟩, [])

/-- The per-path body of the scan loop of `Watcher::watch` (watcher.rs
lines 117-169): on a `modification_time` failure insert `Skipped`
(`HashMap::insert`, which overwrites whatever status was there); on success,
insert `Seen` for an unseen path, refresh and maybe mature a `Seen` path,
and leave any other (terminal) status alone. -/
def inlineFile {T E : Type} (cfg : Config T E) (del : Path → Bool)
    (now : Nat) (mt : Path → Except IOErr Nat) (s : IState T E)
    (file : Path) : IState T E × List String :=
  match mt file with
  | .error e =>
      if cfg.verbose then
        ({ s with files := alUpdate file (.skipped e) s.files },
         ["could not get metadata for " ++ file])
      else
        ({ s with files := alUpdate file (.skipped e) s.files }, [])
  | .ok modtime =>
      match alLookup file s.files with
      | none => inlineSeen cfg del now s file modtime
      | some (.seen _) => inlineSeen cfg del now s file modtime
      | some _ => (s, [])

/-- One full scan pass of `Watcher::watch` over a tick's glob expansion. -/
def inlineTick {T E : Type} (cfg : Config T E) (del : Path → Bool)
    (t : Tick) (s : IState T E) : IState T E × List String :=
  logFold (fun st file => inlineFile cfg del t.now t.mtime st file)
    (flattenEntries t.entries) s

/-- Number of tracked paths whose status is `Processed` (the count that
`StopCondition::FilesFound` compares against in `Watcher::watch`). -/
def processedCount {T E : Type} (fs : List (Path × FileStatus T E)) : Nat :=
  fs.countP (fun x => match x.2 with | .processed _ => true | _ => false)

/-- The `match condition` stop check run at the end of every tick
(watcher.rs lines 172-209 and 339-374; the two copies are textually
identical up to the count used for `FilesFound`, which is passed here as
`pc`).  Note the `Elapsed` arm is `d > start_time.elapsed()` in the source:
it breaks while the elapsed time is still *below* `d`. -/
def stopMet (cond : StopCondition) (now start pc newest : Nat) : Bool :=
  match cond with
  | .once => true
  | .filesFound n => decide (pc ≥ n)
  | .elapsed d => decide (d > now - start)
  | .noNewFilesSince d =>
      match stElapsed now newest with
      | some x => decide (x ≥ d)
      | none => false

/-- The verbose diagnostics printed when the stop condition fires. -/
def stopLog {T E : Type} (cfg : Config T E) (cond : StopCondition) :
    List String :=
  if cfg.verbose then
    match cond with
    | .once => []
    | .filesFound _ => ["processing halted: files successfully processed"]
    | .elapsed _ => ["processing halted: duration elapsed since start"]
    | .noNewFilesSince _ => ["processing halted: no new file seen"]
  else []

/-- The polling loop of `Watcher::watch`: run a tick, evaluate the stop
condition, and either stop with the final tracker state or continue with
the next tick.  Returns `none` when the (finite) environment tick list is
exhausted without the stop condition firing, i.e. the real loop would still
be running. -/
def watchAux {T E : Type} (cfg : Config T E) (del : Path → Bool)
    (cond : StopCondition) (start : Nat) :
    List Tick → IState T E → List String → Option (IState T E × List String)
  | [], _, _ => none
  | t :: rest, s, lg =>
      let r := inlineTick cfg del t s
      if stopMet cond t.now start (processedCount r.1.files) r.1.newest then
        some (r.1, lg ++ r.2 ++ stopLog cfg cond)
      else
        watchAux cfg del cond start rest r.1 (lg ++ r.2)

/-- The report-building loop at the end of `Watcher::watch` (watcher.rs
lines 218-244).  The `FileStatus::Processing` arm is `unreachable!()` in
the source (it panics), modelled as `none`. -/
def buildInline {T E : Type} :
    List (Path × FileStatus T E) → Option (FileResults T E)
  | [] => some ⟨[], [], [], []⟩
  | (p, st) :: rest =>
      (buildInline rest).bind fun r =>
        match st with
        | .seen _ => some { r with not_processed := p :: r.not_processed }
        | .processing => none
        | .processed t => some { r with completed := (p, t) :: r.completed }
        | .errored e => some { r with errored := (p, e) :: r.errored }
        | .skipped e => some { r with skipped := (p, e) :: r.skipped }

/-- `Watcher::watch`: the full single-threaded run over an environment tick
list.  `start` is the common value of `Instant::now()` (`start_time`) and
`SystemTime::now()` (the initial `newest_file`) at invocation.  The outer
`Option` is the loop still running when the environment runs out; the inner
`Option` is the `unreachable!()` panic in report building. -/
def watchInline {T E : Type} (cfg : Config T E) (del : Path → Bool)
    (cond : StopCondition) (start : Nat) (ticks : List Tick) :
    Option (Option (FileResults T E) × List String) :=
  (watchAux cfg del cond start ticks ⟨[], start⟩ []).map
    (fun r => (buildInline r.1.files, r.2))

/-- Fold a prefix of the environment's ticks through the scan pass,
ignoring logs; `watchAux` visits exactly these states. -/
def ticksFold {T E : Type} (cfg : Config T E) (del : Path → Bool)
    (ticks : List Tick) (s : IState T E) : IState T E :=
  ticks.foldl (fun st t => (inlineTick cfg del t st).1) s

/-! ## Pooled dispatcher (`Watcher::watch_threaded` + `Processor::process`) -/

/-- The local state of one worker thread running `Processor::process`:
at the top of its loop (about to lock the queue), holding a dequeued input
(the lock already released, about to run the callback and record the
outcome), or returned. -/
inductive WState where
  | idle
  | hasInput (p : Path)
  | done
deriving DecidableEq

/-- Where the control thread of `Watcher::watch_threaded` is: in the
polling loop, about to close the queue after the stop condition fired,
blocked in the `thread.join()` loop, or past the joins (report assembly). -/
inductive Phase where
  | looping
  | closing
  | waiting
  | finished
deriving DecidableEq

/-- One atomic step of one thread, as chosen by a schedule.  `ctrl` runs
the control thread's next pending unit of work; `wdeq i` is worker `i`'s
lock-queue-and-dequeue critical section; `wproc i` is worker `i` running
the callback on its dequeued input and recording the outcome into the
result map; `panicS i` / `panicE i` are the environment event of worker `i`
panicking inside the successes / errors critical section, which kills that
thread and poisons that mutex. -/
inductive Action where
  | ctrl
  | wdeq (i : Nat)
  | wproc (i : Nat)
  | panicS (i : Nat)
  | panicE (i : Nat)
deriving DecidableEq

/-- The shared state of one `watch_threaded` invocation: the
`Arc<Mutex<Option<VecDeque<PathBuf>>>>` queue (`none` is the closed
state), the two result maps with their mutexes' poison flags, the
`files_seen` tracker map and `newest_file` mark owned by the control
thread, the worker threads, the control thread's phase and its remaining
environment ticks.  `lockFailed` is a ghost flag recording that some
worker's `lock()` on a result map returned `Err` (the
`eprintln!("Unable to save ...")` arms of `Processor::process`). -/
structure TState (T E : Type) where
  queue : Option (List Path)
  spois : Bool
  epois : Bool
  successes : List (Path × T)
  errors : List (Path × E)
  files : List (Path × FileStatus T E)
  newest : Nat
  workers : List WState
  phase : Phase
  pending : List Tick
  lockFailed : Bool

/-- The `if let FileStatus::Seen(last_seen) = entry` body of the control
loop of `watch_threaded` (watcher.rs lines 314-334): refresh the stored
timestamp, raise `newest_file`, and on maturity mark the entry
`Processing` and push the path onto the shared queue.  The push is
`queue.lock().unwrap()` followed by `l.as_mut().unwrap()`; the latter is
safe because the queue is only set to `None` after the loop exits, hence
the `Option.map`. -/
def threadSeen {T E : Type} (cfg : Config T E) (now : Nat) (s : TState T E)
    (file : Path) (modtime : Nat) : TState T E × List String :=
  let s1 := { s with files := alUpdate file (.seen modtime) s.files,
                     newest := max s.newest modtime }
  match stElapsed now modtime with
  | none => (s1, [])
  | some d =>
      if cfg.mature_after ≤ d then
        ({ s1 with files := alUpdate file FileStatus.processing s1.files,
                   queue := s1.queue.map (fun q => q ++ [file]) }, [])
      else (s1, [])

/-- The per-path body of the control loop of `watch_threaded` (watcher.rs
lines 300-336): identical to the inline one except that maturity enqueues
instead of dispatching, and the metadata-failure diagnostic is gated inside
a single arm. -/
def threadFile {T E : Type} (cfg : Config T E) (now : Nat)
    (mt : Path → Except IOErr Nat) (s : TState T E) (file : Path) :
    TState T E × List String :=
  match mt file with
  | .error e =>
      ({ s with files := alUpdate file (.skipped e) s.files },
       if cfg.verbose then ["could not get metadata for " ++ file] else [])
  | .ok modtime =>
      match alLookup file s.files with
      | none => threadSeen cfg now s file modtime
      | some (.seen _) => threadSeen cfg now s file modtime
      | some _ => (s, [])

/-- One step of the control thread of `watch_threaded`: in the polling
loop, run the next tick's scan pass and the stop check (`FilesFound`
compares against `successes.lock().unwrap().len()` here); when the stop
condition has fired, close the queue by replacing it with `None`
(watcher.rs lines 386-389); then block joining the workers, assembling the
report only once every worker has returned. -/
def ctrlStep {T E : Type} (cfg : Config T E) (cond : StopCondition)
    (start : Nat) (s : TState T E) : TState T E × List String :=
  match s.phase with
  | .looping =>
      match s.pending with
      | [] => (s, [])
      | t :: rest =>
          let r := logFold (fun st file => threadFile cfg t.now t.mtime st file)
            (flattenEntries t.entries) s
          let s1 := { r.1 with pending := rest }
          if stopMet cond t.now start s1.successes.length s1.newest then
            ({ s1 with phase := .closing }, r.2 ++ stopLog cfg cond)
          else (s1, r.2)
  | .closing =>
      ({ s with queue := none, phase := .waiting },
       if cfg.verbose then
         ["signaling threads to stop", "waiting for threads to stop"]
       else [])
  | .waiting =>
      if s.workers.all (fun w => decide (w = WState.done)) then
        ({ s with phase := .finished }, [])
      else (s, [])
  | .finished => (s, [])

/-- Worker `i`'s queue critical section (`Processor::process`, processor.rs
lines 51-69): lock the queue; `None` means stop, so return; an empty open
queue means drop the lock and sleep; otherwise pop the front path and
leave the critical section holding it. -/
def wdeqStep {T E : Type} (s : TState T E) (i : Nat) : TState T E :=
  match s.workers.get? i with
  | some .idle =>
      match s.queue with
      | none => { s with workers := s.workers.set i .done }
      | some [] => s
      | some (p :: rest) =>
          { s with queue := some rest,
                   workers := s.workers.set i (.hasInput p) }
  | _ => s

/-- Worker `i` processing its dequeued input (processor.rs lines 72-100):
run the callback outside any lock, then lock the matching result map.  If
that lock fails (poisoned mutex) print the `Unable to save` diagnostic and
carry on, dropping the result; otherwise apply the delete-on-completion
policy (success case) and insert the outcome. -/
def wprocStep {T E : Type} (cfg : Config T E) (del : Path → Bool)
    (s : TState T E) (i : Nat) : TState T E × List String :=
  match s.workers.get? i with
  | some (.hasInput p) =>
      match cfg.callback p with
      | .ok t =>
          if s.spois then
            ({ s with workers := s.workers.set i .idle, lockFailed := true },
             ["unable to save " ++ p ++ " to successes"])
          else
            let dlog : List String :=
              if cfg.delete_on_completion then
                match del p, cfg.verbose with
                | true, true => ["processed and deleted " ++ p]
                | false, true => ["processed but failed to delete " ++ p]
                | _, _ => []
              else []
            ({ s with successes := alUpdate p t s.successes,
                      workers := s.workers.set i .idle }, dlog)
      | .error e =>
          if s.epois then
            ({ s with workers := s.workers.set i .idle, lockFailed := true },
             ["unable to save " ++ p ++ " to errors"])
          else
            ({ s with errors := alUpdate p e s.errors,
                      workers := s.workers.set i .idle }, [])
  | _ => (s, [])

/-- Worker `i` panicking while holding the successes mutex: the thread
dies (it becomes joinable, and `thread.join().ok()` ignores the error) and
the mutex is left poisoned. -/
def panicSStep {T E : Type} (s : TState T E) (i : Nat) : TState T E :=
  match s.workers.get? i with
  | some (.hasInput _) =>
      { s with spois := true, workers := s.workers.set i .done }
  | _ => s

/-- Worker `i` panicking while holding the errors mutex. -/
def panicEStep {T E : Type} (s : TState T E) (i : Nat) : TState T E :=
  match s.workers.get? i with
  | some (.hasInput _) =>
      { s with epois := true, workers := s.workers.set i .done }
  | _ => s

/-- One atomic step of the whole pooled system. -/
def tstep {T E : Type} (cfg : Config T E) (del : Path → Bool)
    (cond : StopCondition) (start : Nat) (s : TState T E) :
    Action → TState T E × List String
  | .ctrl => ctrlStep cfg cond start s
  | .wdeq i => (wdeqStep s i, [])
  | .wproc i => wprocStep cfg del s i
  | .panicS i => (panicSStep s i, [])
  | .panicE i => (panicEStep s i, [])

/-- The state of `watch_threaded` right after spawning `numW` workers:
open empty queue, empty unpoisoned result maps, empty tracker, `newest`
and `start_time` both read from the clock at invocation, all workers at
the top of their loop, the control thread entering its polling loop. -/
def tInit {T E : Type} (numW : Nat) (ticks : List Tick) (start : Nat) :
    TState T E :=
  { queue := some [], spois := false, epois := false, successes := [],
    errors := [], files := [], newest := start,
    workers := List.replicate numW .idle, phase := .looping,
    pending := ticks, lockFailed := false }

/-- Run the pooled system under a schedule. -/
def prun {T E : Type} (cfg : Config T E) (del : Path → Bool)
    (cond : StopCondition) (start : Nat) (sched : List Action)
    (s : TState T E) : TState T E × List String :=
  logFold (fun st a => tstep cfg del cond start st a) sched s

/-- The final state reached from `tInit` under a schedule. -/
def pfinal {T E : Type} (cfg : Config T E) (del : Path → Bool)
    (cond : StopCondition) (start : Nat) (numW : Nat) (ticks : List Tick)
    (sched : List Action) : TState T E :=
  (prun cfg del cond start sched (tInit numW ticks start)).1

/-- The `files_seen` partitioning loop of `watch_threaded` report assembly
(watcher.rs lines 414-425): `Skipped` and `Seen` entries are collected,
`Processing` entries are dropped (the comment says "these should appear as
completed/error"), and `Processed`/`Errored` entries are `unreachable!()`
(modelled as `none`). -/
def splitThreaded {T E : Type} :
    List (Path × FileStatus T E) → Option (List Path × List (Path × IOErr))
  | [] => some ([], [])
  | (p, st) :: rest =>
      (splitThreaded rest).bind fun x =>
        match st with
        | .skipped e => some (x.1, (p, e) :: x.2)
        | .seen _ => some (p :: x.1, x.2)
        | .processing => some x
        | .processed _ => none
        | .errored _ => none

/-- Report assembly of `watch_threaded` (watcher.rs lines 400-432), legal
only once the control thread has joined every worker (`phase = finished`):
`Arc::try_unwrap(..).into_inner().unwrap()` on each result map—which
panics if that map's mutex was poisoned—then the `files_seen`
partitioning.  `none` means the control thread has not returned yet;
`Except.error` is a panic of the invocation. -/
def tResult {T E : Type} (s : TState T E) :
    Option (Except String (FileResults T E)) :=
  if s.phase = Phase.finished then
    some
      (if s.spois then .error "panicked unwrapping poisoned successes"
       else if s.epois then .error "panicked unwrapping poisoned errors"
       else
         match splitThreaded s.files with
         | some x => .ok ⟨x.2, x.1, s.successes, s.errors⟩
         | none => .error "unreachable status in files seen")
  else none

/-- The control thread's scan pass touches only its own data: this
predicate says `s1` agrees with `s0` on every field a scan pass leaves
alone (the result maps and their poison flags, the phase, the workers, and
the ghost lock-failure flag). -/
def ctrlOnly {T E : Type} (s1 s0 : TState T E) : Prop :=
  s1.successes = s0.successes ∧ s1.errors = s0.errors ∧
  s1.phase = s0.phase ∧ s1.spois = s0.spois ∧ s1.epois = s0.epois ∧
  s1.lockFailed = s0.lockFailed ∧ s1.workers = s0.workers

/-! ## Spec-side definition for the maturity-clock refinement claim -/

/-- Modelled from the spec: the specification's description of the maturity
check, in its own words — "the wall-clock time elapsed since the tick at
which the stored timestamp value was last (re)recorded by the tracker" must
reach the threshold.  `recordedAt` is the wall-clock time of the tick that
last wrote the stored timestamp value.  This definition exists only to be
compared against the source-derived check (`inlineSeen`/`stElapsed`), which
measures `now` minus the stored modification timestamp itself. -/
def maturesSpecClaim (now recordedAt threshold : Nat) : Bool :=
  decide (threshold ≤ now - recordedAt)

/-! ## Concrete fixtures (environments, schedules, configurations) -/

/-- A callback that succeeds on every path with value `1`. -/
def cbOk : Path → Except Nat Nat := fun _ => .ok 1

/-- Watcher with the default knobs (maturation 5, no deletion, quiet). -/
def cfgA : Config Nat Nat := ⟨cbOk, 1, false, 5, false⟩

/-- Watcher with maturation threshold 0: files mature on first sight. -/
def cfgMat0 : Config Nat Nat := ⟨cbOk, 1, false, 0, false⟩

/-- Watcher with delete-on-completion enabled. -/
def cfgDel : Config Nat Nat := ⟨cbOk, 1, true, 5, false⟩

/-- Deletion always succeeds. -/
def delT : Path → Bool := fun _ => true

/-- Deletion always fails. -/
def delF : Path → Bool := fun _ => false

/-- Every metadata read fails. -/
def mtErr : Path → Except IOErr Nat := fun _ => .error 0

/-- Tick at time 10 observing file `a` with modification time 0. -/
def t41 : Tick := ⟨10, [.ok "a"], fun _ => .ok 0⟩

/-- Tick at time 20 on which the metadata read for `a` fails with error 7. -/
def t42 : Tick := ⟨20, [.ok "a"], fun _ => .error 7⟩

/-- One-tick environment observing `a` (mature under `cfgMat0`). -/
def ticks2 : List Tick := [⟨10, [.ok "a"], fun _ => .ok 0⟩]

/-- Schedule: control runs the tick and closes the queue before the single
worker ever dequeues; the worker then exits; control joins and assembles. -/
def sched2 : List Action := [.ctrl, .ctrl, .wdeq 0, .ctrl]

/-- One-tick environment observing `b` (mature under `cfgMat0`). -/
def ticks3 : List Tick := [⟨10, [.ok "b"], fun _ => .ok 0⟩]

/-- Inline environment: one tick at time 1 observing a mature `a`. -/
def ticks6i : List Tick := [⟨1, [.ok "a"], fun _ => .ok 0⟩]

/-- Two-tick pooled environment observing `a` on both ticks. -/
def ticks6 : List Tick :=
  [⟨1, [.ok "a"], fun _ => .ok 0⟩, ⟨2, [.ok "a"], fun _ => .ok 0⟩]

/-- Schedule: tick (enqueue `a`), worker dequeues and records success, next
tick fires `FilesFound 1` and the control thread leaves the polling loop. -/
def sched6 : List Action := [.ctrl, .wdeq 0, .wproc 0, .ctrl]

/-- Extension of `sched6` that closes the queue, lets the worker exit, and
joins, reaching report assembly. -/
def sched6f : List Action :=
  [.ctrl, .wdeq 0, .wproc 0, .ctrl, .ctrl, .wdeq 0, .ctrl]

/-- The report of the `FilesFound 1` runs: `a` completed with value 1. -/
def rep6 : FileResults Nat Nat := ⟨[], [], [("a", 1)], []⟩

/-- One-tick pooled environment in which `a` and `b` both mature at once. -/
def ticks7 : List Tick := [⟨10, [.ok "a", .ok "b"], fun _ => .ok 0⟩]

/-- Schedule: both workers dequeue; worker 0 panics inside the successes
critical section (poisoning that mutex); worker 1 then fails to lock the
successes map when recording its own result. -/
def sched7 : List Action := [.ctrl, .wdeq 0, .wdeq 1, .panicS 0, .wproc 1]

/-- A pooled state whose single worker holds dequeued input `a`, with
healthy result-map locks. -/
def tsW : TState Nat Nat :=
  ⟨some [], false, false, [], [], [], 0, [.hasInput "a"], .looping, [], false⟩

/-- The report built from the single tracker entry `a ↦ Processed 1`. -/
def repC8 : FileResults Nat Nat := ⟨[], [], [("a", 1)], []⟩

/-! ## Helper lemmas -/

theorem logFold_inv {σ α : Type} (g : σ → α → σ × List String)
    (P : σ → Prop) (h : ∀ st x, P st → P (g st x).1) :
    ∀ (l : List α) (s : σ), P s → P (logFold g l s).1
  | [], _, hs => hs
  | x :: xs, s, hs => logFold_inv g P h xs _ (h s x hs)

theorem logFold_fst_congr {σ α : Type} {g1 g2 : σ → α → σ × List String}
    (h : ∀ st x, (g1 st x).1 = (g2 st x).1) :
    ∀ (l : List α) (s : σ), (logFold g1 l s).1 = (logFold g2 l s).1
  | [], _ => rfl
  | x :: xs, s => by
      simp only [logFold]
      rw [h s x]
      exact logFold_fst_congr h xs _

theorem alLookup_alUpdate_self {α : Type} (k : Path) (v : α) :
    ∀ l : List (Path × α), alLookup k (alUpdate k v l) = some v
  | [] => by simp [alUpdate, alLookup]
  | (k2, v2) :: rest => by
      by_cases h : k = k2
      · simp [alUpdate, alLookup, h]
      · simp [alUpdate, alLookup, h, alLookup_alUpdate_self k v rest]

theorem alUpdate_length_le {α : Type} (k : Path) (v : α) :
    ∀ l : List (Path × α), l.length ≤ (alUpdate k v l).length
  | [] => by simp [alUpdate]
  | (k2, v2) :: rest => by
      by_cases h : k = k2
      · simp [alUpdate, h]
      · simpa [alUpdate, h] using alUpdate_length_le k v rest

theorem alLookup_eq_none_of_not_mem {α : Type} (k : Path) :
    ∀ l : List (Path × α), k ∉ l.map Prod.fst → alLookup k l = none
  | [], _ => rfl
  | (k2, v2) :: rest, h => by
      have hne : k ≠ k2 := by
        intro he; exact h (by simp [he])
      have : k ∉ rest.map Prod.fst := by
        intro hm; exact h (by simp [hm])
      simp [alLookup, hne, alLookup_eq_none_of_not_mem k rest this]

theorem flattenEntries_append (l1 l2 : List (Except GlobErr Path)) :
    flattenEntries (l1 ++ l2) = flattenEntries l1 ++ flattenEntries l2 := by
  induction l1 with
  | nil => rfl
  | cons x xs ih => cases x <;> simp [flattenEntries, ih]

theorem buildInline_completed_length {T E : Type} :
    ∀ (fs : List (Path × FileStatus T E)) (r : FileResults T E),
      buildInline fs = some r → r.completed.length = processedCount fs
  | [], r, h => by
      simp only [buildInline, Option.some.injEq] at h
      subst h
      simp [processedCount]
  | (p, st) :: rest, r, h => by
      simp only [buildInline, Option.bind_eq_some] at h
      obtain ⟨r0, hr0, hm⟩ := h
      have ih := buildInline_completed_length rest r0 hr0
      cases st with
      | skipped e =>
          injection hm with hm
          subst hm
          simpa [processedCount, List.countP_cons] using ih
      | seen t =>
          injection hm with hm
          subst hm
          simpa [processedCount, List.countP_cons] using ih
      | processing => exact absurd hm (by simp)
      | processed t =>
          injection hm with hm
          subst hm
          simp [processedCount, List.countP_cons] at ih ⊢
          omega
      | errored e =>
          injection hm with hm
          subst hm
          simpa [processedCount, List.countP_cons] using ih

theorem buildInline_errored_keys {T E : Type} :
    ∀ (fs : List (Path × FileStatus T E)) (r : FileResults T E),
      buildInline fs = some r →
      ∀ x ∈ r.errored, x.1 ∈ fs.map Prod.fst
  | [], r, h => by
      simp only [buildInline, Option.some.injEq] at h
      subst h
      simp
  | (p, st) :: rest, r, h => by
      simp only [buildInline, Option.bind_eq_some] at h
      obtain ⟨r0, hr0, hm⟩ := h
      have ih := buildInline_errored_keys rest r0 hr0
      cases st with
      | skipped e =>
          injection hm with hm
          subst hm
          intro x hx
          simp only [List.map_cons, List.mem_cons]
          exact Or.inr (ih x hx)
      | seen t =>
          injection hm with hm
          subst hm
          intro x hx
          simp only [List.map_cons, List.mem_cons]
          exact Or.inr (ih x hx)
      | processing => exact absurd hm (by simp)
      | processed t =>
          injection hm with hm
          subst hm
          intro x hx
          simp only [List.map_cons, List.mem_cons]
          exact Or.inr (ih x hx)
      | errored e =>
          injection hm with hm
          subst hm
          intro x hx
          simp only [List.map_cons, List.mem_cons]
          rcases List.mem_cons.mp hx with hx | hx
          · left
            rw [hx]
          · exact Or.inr (ih x hx)

theorem inlineDispatch_fst {T E : Type} (cfg : Config T E)
    (del : Path → Bool) (file : Path) :
    (inlineDispatch cfg del file).1 =
      match cfg.callback file with
      | .ok t => FileStatus.processed t
      | .error e => FileStatus.errored e := by
  unfold inlineDispatch
  cases cfg.callback file with
  | error e => rfl
  | ok t =>
      cases cfg.delete_on_completion <;>
        [skip; cases del file <;> cases cfg.verbose] <;> rfl

theorem inlineSeen_lookup {T E : Type} (cfg : Config T E)
    (del : Path → Bool) (now : Nat) (s : IState T E) (file : Path)
    (m : Nat) :
    alLookup file (inlineSeen cfg del now s file m).1.files =
      some
        (if m ≤ now ∧ cfg.mature_after ≤ now - m then
          match cfg.callback file with
          | .ok t => FileStatus.processed t
          | .error e => FileStatus.errored e
        else .seen m) := by
  by_cases hm : m ≤ now
  · by_cases hmat : cfg.mature_after ≤ now - m
    · simp [inlineSeen, stElapsed, hm, hmat, alLookup_alUpdate_self,
        inlineDispatch_fst]
    · simp [inlineSeen, stElapsed, hm, hmat, alLookup_alUpdate_self]
  · simp [inlineSeen, stElapsed, hm, alLookup_alUpdate_self]

theorem inlineFile_lookup_seen {T E : Type} (cfg : Config T E)
    (del : Path → Bool) (now : Nat) (mt : Path → Except IOErr Nat)
    (s : IState T E) (file : Path) (m : Nat)
    (hmt : mt file = .ok m)
    (hseen : alLookup file s.files = none ∨
      ∃ t0, alLookup file s.files = some (.seen t0)) :
    alLookup file (inlineFile cfg del now mt s file).1.files =
      some
        (if m ≤ now ∧ cfg.mature_after ≤ now - m then
          match cfg.callback file with
          | .ok t => FileStatus.processed t
          | .error e => FileStatus.errored e
        else .seen m) := by
  unfold inlineFile
  rw [hmt]
  rcases hseen with hs | ⟨t0, hs⟩ <;> rw [hs] <;>
    exact inlineSeen_lookup cfg del now s file m

theorem watchAux_filesFound {T E : Type} (cfg : Config T E)
    (del : Path → Bool) (n start : Nat) :
    ∀ (ts : List Tick) (s : IState T E) (lg : List String)
      (s2 : IState T E) (lg2 : List String),
      watchAux cfg del (.filesFound n) start ts s lg = some (s2, lg2) →
      ∃ k, 0 < k ∧ k ≤ ts.length ∧
        s2.files = (ticksFold cfg del (ts.take k) s).files ∧
        n ≤ processedCount (ticksFold cfg del (ts.take k) s).files ∧
        ∀ j, 0 < j → j < k →
          processedCount (ticksFold cfg del (ts.take j) s).files < n
  | [], _, _, _, _, h => by simp [watchAux] at h
  | t :: rest, s, lg, s2, lg2, h => by
      rw [watchAux] at h
      by_cases hstop : stopMet (.filesFound n) t.now start
          (processedCount (inlineTick cfg del t s).1.files)
          (inlineTick cfg del t s).1.newest = true
      · rw [if_pos hstop] at h
        injection h with h
        have hs2 : s2 = (inlineTick cfg del t s).1 :=
          (congrArg Prod.fst h).symm
        have hn : n ≤ processedCount (inlineTick cfg del t s).1.files := by
          simpa [stopMet, ge_iff_le] using hstop
        refine ⟨1, Nat.one_pos, by simp, ?_, ?_, ?_⟩
        · rw [hs2]
          simp [ticksFold]
        · simpa [ticksFold] using hn
        · intro j hj hj1
          omega
      · rw [if_neg hstop] at h
        obtain ⟨k, hk0, hkle, hfiles, hge, hlt⟩ :=
          watchAux_filesFound cfg del n start rest
            (inlineTick cfg del t s).1 (lg ++ (inlineTick cfg del t s).2)
            s2 lg2 h
        have hcons : ∀ j, ticksFold cfg del ((t :: rest).take (j + 1)) s =
            ticksFold cfg del (rest.take j) (inlineTick cfg del t s).1 := by
          intro j
          simp [ticksFold]
        refine ⟨k + 1, Nat.succ_pos k, by simpa using Nat.succ_le_succ hkle,
          ?_, ?_, ?_⟩
        · rw [hcons k]
          exact hfiles
        · rw [hcons k]
          exact hge
        · intro j hj hjk
          match j, hj with
          | jj + 1, _ =>
              rw [hcons jj]
              rcases Nat.eq_zero_or_pos jj with h0 | hpos
              · subst h0
                simp only [List.take_zero, ticksFold, List.foldl_nil]
                have hpc := hstop
                simp only [stopMet, ge_iff_le, decide_eq_true_eq] at hpc
                omega
              · exact hlt jj hpos (by omega)

theorem ctrlOnly_rfl {T E : Type} (s : TState T E) : ctrlOnly s s :=
  ⟨rfl, rfl, rfl, rfl, rfl, rfl, rfl⟩

theorem ctrlOnly_trans {T E : Type} {s2 s1 s0 : TState T E}
    (h2 : ctrlOnly s2 s1) (h1 : ctrlOnly s1 s0) : ctrlOnly s2 s0 := by
  obtain ⟨a2, b2, c2, d2, e2, f2, g2⟩ := h2
  obtain ⟨a1, b1, c1, d1, e1, f1, g1⟩ := h1
  exact ⟨a2.trans a1, b2.trans b1, c2.trans c1, d2.trans d1, e2.trans e1,
    f2.trans f1, g2.trans g1⟩

theorem threadSeen_ctrlOnly {T E : Type} (cfg : Config T E) (now : Nat)
    (s : TState T E) (file : Path) (m : Nat) :
    ctrlOnly (threadSeen cfg now s file m).1 s := by
  unfold threadSeen
  rcases h : stElapsed now m with _ | d <;> try simp only [h]
  · refine ⟨?_, ?_, ?_, ?_, ?_, ?_, ?_⟩ <;> trivial
  · by_cases hd : cfg.mature_after ≤ d
    · rw [if_pos hd]
      refine ⟨?_, ?_, ?_, ?_, ?_, ?_, ?_⟩ <;> trivial
    · rw [if_neg hd]
      refine ⟨?_, ?_, ?_, ?_, ?_, ?_, ?_⟩ <;> trivial

theorem threadFile_ctrlOnly {T E : Type} (cfg : Config T E) (now : Nat)
    (mt : Path → Except IOErr Nat) (s : TState T E) (file : Path) :
    ctrlOnly (threadFile cfg now mt s file).1 s := by
  unfold threadFile
  rcases h : mt file with e | m <;> try simp only [h]
  · refine ⟨?_, ?_, ?_, ?_, ?_, ?_, ?_⟩ <;> trivial
  · rcases hl : alLookup file s.files with _ | st <;> try simp only [hl]
    · exact threadSeen_ctrlOnly cfg now s file m
    · cases st <;>
        first
        | exact threadSeen_ctrlOnly cfg now s file m
        | refine ⟨?_, ?_, ?_, ?_, ?_, ?_, ?_⟩ <;> trivial

theorem scanFold_ctrlOnly {T E : Type} (cfg : Config T E) (now : Nat)
    (mt : Path → Except IOErr Nat) (l : List Path) (s : TState T E) :
    ctrlOnly
      (logFold (fun st file => threadFile cfg now mt st file) l s).1 s :=
  logFold_inv (fun st file => threadFile cfg now mt st file)
    (fun st => ctrlOnly st s)
    (fun st x hst => ctrlOnly_trans (threadFile_ctrlOnly cfg now mt st x) hst)
    l s (ctrlOnly_rfl s)

theorem wdeqStep_shared {T E : Type} (s : TState T E) (i : Nat) :
    (wdeqStep s i).successes = s.successes ∧
    (wdeqStep s i).errors = s.errors ∧
    (wdeqStep s i).phase = s.phase ∧
    (wdeqStep s i).spois = s.spois ∧
    (wdeqStep s i).epois = s.epois ∧
    (wdeqStep s i).lockFailed = s.lockFailed := by
  unfold wdeqStep
  rcases hw : s.workers.get? i with _ | st <;> try simp only [hw]
  · refine ⟨?_, ?_, ?_, ?_, ?_, ?_⟩ <;> trivial
  · cases st with
    | idle =>
        rcases hq : s.queue with _ | q <;> try simp only [hq]
        · refine ⟨?_, ?_, ?_, ?_, ?_, ?_⟩ <;> trivial
        · cases q <;> refine ⟨?_, ?_, ?_, ?_, ?_, ?_⟩ <;> trivial
    | hasInput p => refine ⟨?_, ?_, ?_, ?_, ?_, ?_⟩ <;> trivial
    | done => refine ⟨?_, ?_, ?_, ?_, ?_, ?_⟩ <;> trivial

theorem panicSStep_shared {T E : Type} (s : TState T E) (i : Nat) :
    (panicSStep s i).successes = s.successes ∧
    (panicSStep s i).errors = s.errors ∧
    (panicSStep s i).phase = s.phase ∧
    (panicSStep s i).lockFailed = s.lockFailed := by
  unfold panicSStep
  rcases hw : s.workers.get? i with _ | st <;> try simp only [hw]
  · refine ⟨?_, ?_, ?_, ?_⟩ <;> trivial
  · cases st <;> refine ⟨?_, ?_, ?_, ?_⟩ <;> trivial

theorem panicEStep_shared {T E : Type} (s : TState T E) (i : Nat) :
    (panicEStep s i).successes = s.successes ∧
    (panicEStep s i).errors = s.errors ∧
    (panicEStep s i).phase = s.phase ∧
    (panicEStep s i).lockFailed = s.lockFailed := by
  unfold panicEStep
  rcases hw : s.workers.get? i with _ | st <;> try simp only [hw]
  · refine ⟨?_, ?_, ?_, ?_⟩ <;> trivial
  · cases st <;> refine ⟨?_, ?_, ?_, ?_⟩ <;> trivial

theorem wprocStep_phase {T E : Type} (cfg : Config T E) (del : Path → Bool)
    (s : TState T E) (i : Nat) :
    (wprocStep cfg del s i).1.phase = s.phase := by
  unfold wprocStep
  rcases hw : s.workers.get? i with _ | st
  · rfl
  · cases st with
    | hasInput p =>
        rcases hc : cfg.callback p with e | t
        · cases he : s.epois <;> simp [hc, he]
        · cases hs : s.spois <;> simp [hc, hs]
    | idle => rfl
    | done => rfl

theorem wprocStep_succ_mono {T E : Type} (cfg : Config T E)
    (del : Path → Bool) (s : TState T E) (i : Nat) :
    s.successes.length ≤ (wprocStep cfg del s i).1.successes.length := by
  unfold wprocStep
  rcases hw : s.workers.get? i with _ | st
  · exact le_refl _
  · cases st with
    | hasInput p =>
        rcases hc : cfg.callback p with e | t
        · cases he : s.epois <;> simp [hc, he]
        · cases hs : s.spois <;> simp [hc, hs, alUpdate_length_le]
    | idle => exact le_refl _
    | done => exact le_refl _

theorem ctrlStep_break {T E : Type} (cfg : Config T E) (n start : Nat)
    (s : TState T E)
    (h : s.phase = Phase.looping ∨ n ≤ s.successes.length) :
    (ctrlStep cfg (.filesFound n) start s).1.phase = Phase.looping ∨
      n ≤ (ctrlStep cfg (.filesFound n) start s).1.successes.length := by
  unfold ctrlStep
  rcases hp : s.phase with _ | _ | _ | _ <;> try simp only [hp]
  · rcases hpend : s.pending with _ | ⟨t, rest⟩ <;> try simp only [hpend]
    · exact Or.inl hp
    · obtain ⟨hsucc, _, hphase, _⟩ :=
        scanFold_ctrlOnly cfg t.now t.mtime (flattenEntries t.entries) s
      by_cases hstop : stopMet (.filesFound n) t.now start
          (logFold (fun st file => threadFile cfg t.now t.mtime st file)
              (flattenEntries t.entries) s).1.successes.length
          (logFold (fun st file => threadFile cfg t.now t.mtime st file)
              (flattenEntries t.entries) s).1.newest = true
      · rw [if_pos hstop]
        right
        simp only [stopMet, ge_iff_le, decide_eq_true_eq] at hstop
        exact hstop
      · rw [if_neg hstop]
        left
        rw [hphase, hp]
  · rcases h with h | h
    · exact absurd (hp.symm.trans h) (by decide)
    · exact Or.inr h
  · rcases h with h | h
    · exact absurd (hp.symm.trans h) (by decide)
    · by_cases hall : s.workers.all (fun w => decide (w = WState.done)) = true
      · rw [if_pos hall]
        exact Or.inr h
      · rw [if_neg hall]
        exact Or.inr h
  · rcases h with h | h
    · exact absurd (hp.symm.trans h) (by decide)
    · exact Or.inr h

theorem tstep_break {T E : Type} (cfg : Config T E) (del : Path → Bool)
    (n start : Nat) (a : Action) (s : TState T E)
    (h : s.phase = Phase.looping ∨ n ≤ s.successes.length) :
    (tstep cfg del (.filesFound n) start s a).1.phase = Phase.looping ∨
      n ≤ (tstep cfg del (.filesFound n) start s a).1.successes.length := by
  cases a with
  | ctrl => exact ctrlStep_break cfg n start s h
  | wdeq i =>
      obtain ⟨hs, _, hp, _⟩ := wdeqStep_shared s i
      rcases h with h | h
      · exact Or.inl (by rw [tstep, hp, h])
      · exact Or.inr (by rw [tstep, hs]; exact h)
  | wproc i =>
      rcases h with h | h
      · exact Or.inl (by rw [tstep, wprocStep_phase, h])
      · exact Or.inr (le_trans h (wprocStep_succ_mono cfg del s i))
  | panicS i =>
      obtain ⟨hs, _, hp, _⟩ := panicSStep_shared s i
      rcases h with h | h
      · exact Or.inl (by rw [tstep, hp, h])
      · exact Or.inr (by rw [tstep, hs]; exact h)
  | panicE i =>
      obtain ⟨hs, _, hp, _⟩ := panicEStep_shared s i
      rcases h with h | h
      · exact Or.inl (by rw [tstep, hp, h])
      · exact Or.inr (by rw [tstep, hs]; exact h)

theorem prun_break {T E : Type} (cfg : Config T E) (del : Path → Bool)
    (n start : Nat) (sched : List Action) (s : TState T E)
    (h : s.phase = Phase.looping ∨ n ≤ s.successes.length) :
    (prun cfg del (.filesFound n) start sched s).1.phase = Phase.looping ∨
      n ≤ (prun cfg del (.filesFound n) start sched s).1.successes.length :=
  logFold_inv (fun st a => tstep cfg del (.filesFound n) start st a)
    (fun st => st.phase = Phase.looping ∨ n ≤ st.successes.length)
    (fun st a hst => tstep_break cfg del n start a st hst) sched s h

theorem ctrlStep_lockbits {T E : Type} (cfg : Config T E)
    (cond : StopCondition) (start : Nat) (s : TState T E) :
    (ctrlStep cfg cond start s).1.lockFailed = s.lockFailed ∧
    (ctrlStep cfg cond start s).1.spois = s.spois ∧
    (ctrlStep cfg cond start s).1.epois = s.epois := by
  unfold ctrlStep
  rcases hp : s.phase with _ | _ | _ | _ <;> try simp only [hp]
  · rcases hpend : s.pending with _ | ⟨t, rest⟩ <;> try simp only [hpend]
    · refine ⟨?_, ?_, ?_⟩ <;> trivial
    · obtain ⟨_, _, _, hsp, hep, hlf, _⟩ :=
        scanFold_ctrlOnly cfg t.now t.mtime (flattenEntries t.entries) s
      by_cases hstop : stopMet cond t.now start
          (logFold (fun st file => threadFile cfg t.now t.mtime st file)
              (flattenEntries t.entries) s).1.successes.length
          (logFold (fun st file => threadFile cfg t.now t.mtime st file)
              (flattenEntries t.entries) s).1.newest = true
      · rw [if_pos hstop]
        exact ⟨hlf, hsp, hep⟩
      · rw [if_neg hstop]
        exact ⟨hlf, hsp, hep⟩
  · refine ⟨?_, ?_, ?_⟩ <;> trivial
  · by_cases hall : s.workers.all (fun w => decide (w = WState.done)) = true
    · rw [if_pos hall]
      refine ⟨?_, ?_, ?_⟩ <;> trivial
    · rw [if_neg hall]
      refine ⟨?_, ?_, ?_⟩ <;> trivial
  · refine ⟨?_, ?_, ?_⟩ <;> trivial

theorem wprocStep_flags {T E : Type} (cfg : Config T E) (del : Path → Bool)
    (s : TState T E) (i : Nat) :
    (wprocStep cfg del s i).1.spois = s.spois ∧
    (wprocStep cfg del s i).1.epois = s.epois ∧
    ((wprocStep cfg del s i).1.lockFailed = true →
      s.lockFailed = true ∨ s.spois = true ∨ s.epois = true) := by
  unfold wprocStep
  rcases hw : s.workers.get? i with _ | st
  · exact ⟨rfl, rfl, fun hl => Or.inl hl⟩
  · cases st with
    | hasInput p =>
        rcases hc : cfg.callback p with e | t <;> simp only [hc]
        · by_cases he : s.epois = true
          · rw [if_pos he]
            exact ⟨rfl, rfl, fun _ => Or.inr (Or.inr he)⟩
          · rw [if_neg he]
            exact ⟨rfl, rfl, fun hl => Or.inl hl⟩
        · by_cases hs : s.spois = true
          · rw [if_pos hs]
            exact ⟨rfl, rfl, fun _ => Or.inr (Or.inl hs)⟩
          · rw [if_neg hs]
            exact ⟨rfl, rfl, fun hl => Or.inl hl⟩
    | idle => exact ⟨rfl, rfl, fun hl => Or.inl hl⟩
    | done => exact ⟨rfl, rfl, fun hl => Or.inl hl⟩

theorem tstep_lock_inv {T E : Type} (cfg : Config T E) (del : Path → Bool)
    (cond : StopCondition) (start : Nat) (a : Action) (s : TState T E)
    (h : s.lockFailed = true → s.spois = true ∨ s.epois = true) :
    (tstep cfg del cond start s a).1.lockFailed = true →
      (tstep cfg del cond start s a).1.spois = true ∨
        (tstep cfg del cond start s a).1.epois = true := by
  cases a with
  | ctrl =>
      obtain ⟨hlf, hsp, hep⟩ := ctrlStep_lockbits cfg cond start s
      simp only [tstep]
      rw [hlf, hsp, hep]
      exact h
  | wdeq i =>
      obtain ⟨_, _, _, hsp, hep, hlf⟩ := wdeqStep_shared s i
      simp only [tstep]
      rw [hlf, hsp, hep]
      exact h
  | wproc i =>
      obtain ⟨hsp, hep, hlf⟩ := wprocStep_flags cfg del s i
      simp only [tstep]
      rw [hsp, hep]
      intro hl
      rcases hlf hl with hl0 | hx | hx
      · exact h hl0
      · exact Or.inl hx
      · exact Or.inr hx
  | panicS i =>
      simp only [tstep]
      unfold panicSStep
      rcases hw : s.workers.get? i with _ | st
      · exact h
      · cases st with
        | hasInput p => exact fun _ => Or.inl rfl
        | idle => exact h
        | done => exact h
  | panicE i =>
      simp only [tstep]
      unfold panicEStep
      rcases hw : s.workers.get? i with _ | st
      · exact h
      · cases st with
        | hasInput p => exact fun _ => Or.inr rfl
        | idle => exact h
        | done => exact h

theorem prun_lock {T E : Type} (cfg : Config T E) (del : Path → Bool)
    (cond : StopCondition) (start : Nat) (sched : List Action)
    (s : TState T E)
    (h : s.lockFailed = true → s.spois = true ∨ s.epois = true) :
    (prun cfg del cond start sched s).1.lockFailed = true →
      (prun cfg del cond start sched s).1.spois = true ∨
        (prun cfg del cond start sched s).1.epois = true :=
  logFold_inv (fun st a => tstep cfg del cond start st a)
    (fun st => st.lockFailed = true → st.spois = true ∨ st.epois = true)
    (fun st a hst => tstep_lock_inv cfg del cond start a st hst) sched s h

theorem inlineSeen_fst_congr {T E : Type} (cfg1 cfg2 : Config T E)
    (hcb : cfg1.callback = cfg2.callback)
    (hmat : cfg1.mature_after = cfg2.mature_after)
    (del : Path → Bool) (now : Nat) (s : IState T E) (file : Path)
    (m : Nat) :
    (inlineSeen cfg1 del now s file m).1 =
      (inlineSeen cfg2 del now s file m).1 := by
  by_cases hm : m ≤ now
  · by_cases hd : cfg1.mature_after ≤ now - m
    · have hd2 : cfg2.mature_after ≤ now - m := hmat ▸ hd
      simp [inlineSeen, stElapsed, hm, hd, hd2, inlineDispatch_fst, hcb]
    · have hd2 : ¬cfg2.mature_after ≤ now - m := hmat ▸ hd
      simp [inlineSeen, stElapsed, hm, hd, hd2]
  · simp [inlineSeen, stElapsed, hm]

theorem inlineFile_fst_congr {T E : Type} (cfg1 cfg2 : Config T E)
    (hcb : cfg1.callback = cfg2.callback)
    (hmat : cfg1.mature_after = cfg2.mature_after)
    (del : Path → Bool) (now : Nat) (mt : Path → Except IOErr Nat)
    (s : IState T E) (file : Path) :
    (inlineFile cfg1 del now mt s file).1 =
      (inlineFile cfg2 del now mt s file).1 := by
  unfold inlineFile
  rcases h : mt file with e | m
  · cases cfg1.verbose <;> cases cfg2.verbose <;> rfl
  · rcases hl : alLookup file s.files with _ | st
    · exact inlineSeen_fst_congr cfg1 cfg2 hcb hmat del now s file m
    · cases st <;>
        first
        | exact inlineSeen_fst_congr cfg1 cfg2 hcb hmat del now s file m
        | rfl

theorem inlineTick_fst_congr {T E : Type} (cfg1 cfg2 : Config T E)
    (hcb : cfg1.callback = cfg2.callback)
    (hmat : cfg1.mature_after = cfg2.mature_after)
    (del : Path → Bool) (t : Tick) (s : IState T E) :
    (inlineTick cfg1 del t s).1 = (inlineTick cfg2 del t s).1 :=
  logFold_fst_congr
    (fun st file => inlineFile_fst_congr cfg1 cfg2 hcb hmat del t.now
      t.mtime st file)
    (flattenEntries t.entries) s

theorem watchAux_map_fst_congr {T E : Type} (cfg1 cfg2 : Config T E)
    (hcb : cfg1.callback = cfg2.callback)
    (hmat : cfg1.mature_after = cfg2.mature_after)
    (del : Path → Bool) (cond : StopCondition) (start : Nat) :
    ∀ (ts : List Tick) (s : IState T E) (lg1 lg2 : List String),
      (watchAux cfg1 del cond start ts s lg1).map Prod.fst =
        (watchAux cfg2 del cond start ts s lg2).map Prod.fst
  | [], _, _, _ => rfl
  | t :: rest, s, lg1, lg2 => by
      rw [watchAux, watchAux]
      have ht := inlineTick_fst_congr cfg1 cfg2 hcb hmat del t s
      rw [← ht]
      by_cases hstop : stopMet cond t.now start
          (processedCount (inlineTick cfg1 del t s).1.files)
          (inlineTick cfg1 del t s).1.newest = true
      · rw [if_pos hstop, if_pos hstop]
        simp
      · rw [if_neg hstop, if_neg hstop]
        exact watchAux_map_fst_congr cfg1 cfg2 hcb hmat del cond start rest
          (inlineTick cfg1 del t s).1 _ _

theorem threadSeen_fst_congr {T E : Type} (cfg1 cfg2 : Config T E)
    (hmat : cfg1.mature_after = cfg2.mature_after)
    (now : Nat) (s : TState T E) (file : Path) (m : Nat) :
    (threadSeen cfg1 now s file m).1 = (threadSeen cfg2 now s file m).1 := by
  unfold threadSeen
  rw [hmat]

theorem threadFile_fst_congr {T E : Type} (cfg1 cfg2 : Config T E)
    (hmat : cfg1.mature_after = cfg2.mature_after)
    (now : Nat) (mt : Path → Except IOErr Nat) (s : TState T E)
    (file : Path) :
    (threadFile cfg1 now mt s file).1 = (threadFile cfg2 now mt s file).1 := by
  unfold threadFile
  rcases h : mt file with e | m
  · rfl
  · rcases hl : alLookup file s.files with _ | st
    · exact threadSeen_fst_congr cfg1 cfg2 hmat now s file m
    · cases st <;>
        first
        | exact threadSeen_fst_congr cfg1 cfg2 hmat now s file m
        | rfl

theorem ctrlStep_fst_congr {T E : Type} (cfg1 cfg2 : Config T E)
    (hmat : cfg1.mature_after = cfg2.mature_after)
    (cond : StopCondition) (start : Nat) (s : TState T E) :
    (ctrlStep cfg1 cond start s).1 = (ctrlStep cfg2 cond start s).1 := by
  unfold ctrlStep
  rcases hp : s.phase with _ | _ | _ | _ <;> try simp only [hp] <;> try rfl
  rcases hpend : s.pending with _ | ⟨t, rest⟩ <;> try simp only [hpend] <;>
    try rfl
  have hsc : (logFold (fun st file => threadFile cfg1 t.now t.mtime st file)
      (flattenEntries t.entries) s).1 =
      (logFold (fun st file => threadFile cfg2 t.now t.mtime st file)
        (flattenEntries t.entries) s).1 :=
    logFold_fst_congr
      (fun st file =>
        threadFile_fst_congr cfg1 cfg2 hmat t.now t.mtime st file)
      (flattenEntries t.entries) s
  rw [← hsc]
  by_cases hstop : stopMet cond t.now start
      (logFold (fun st file => threadFile cfg1 t.now t.mtime st file)
          (flattenEntries t.entries) s).1.successes.length
      (logFold (fun st file => threadFile cfg1 t.now t.mtime st file)
          (flattenEntries t.entries) s).1.newest = true
  · rw [if_pos hstop, if_pos hstop]
  · rw [if_neg hstop, if_neg hstop]

theorem wprocStep_fst_congr {T E : Type} (cfg1 cfg2 : Config T E)
    (hcb : cfg1.callback = cfg2.callback)
    (del : Path → Bool) (s : TState T E) (i : Nat) :
    (wprocStep cfg1 del s i).1 = (wprocStep cfg2 del s i).1 := by
  unfold wprocStep
  rcases hw : s.workers.get? i with _ | st
  · rfl
  · cases st with
    | hasInput p =>
        rw [hcb]
        rcases hc : cfg2.callback p with e | t <;> try simp only [hc] <;>
          try rfl
        by_cases hs : s.spois = true
        · rw [if_pos hs, if_pos hs]
        · rw [if_neg hs, if_neg hs]
    | idle => rfl
    | done => rfl

theorem tstep_fst_congr {T E : Type} (cfg1 cfg2 : Config T E)
    (hcb : cfg1.callback = cfg2.callback)
    (hmat : cfg1.mature_after = cfg2.mature_after)
    (del : Path → Bool) (cond : StopCondition) (start : Nat)
    (s : TState T E) (a : Action) :
    (tstep cfg1 del cond start s a).1 = (tstep cfg2 del cond start s a).1 := by
  cases a with
  | ctrl => exact ctrlStep_fst_congr cfg1 cfg2 hmat cond start s
  | wdeq i => rfl
  | wproc i => exact wprocStep_fst_congr cfg1 cfg2 hcb del s i
  | panicS i => rfl
  | panicE i => rfl

theorem prun_fst_congr {T E : Type} (cfg1 cfg2 : Config T E)
    (hcb : cfg1.callback = cfg2.callback)
    (hmat : cfg1.mature_after = cfg2.mature_after)
    (del : Path → Bool) (cond : StopCondition) (start : Nat)
    (sched : List Action) (s : TState T E) :
    (prun cfg1 del cond start sched s).1 =
      (prun cfg2 del cond start sched s).1 :=
  logFold_fst_congr
    (fun st a => tstep_fst_congr cfg1 cfg2 hcb hmat del cond start st a)
    sched s

/-! ## Claim theorems -/

/-- Claim C1 (code bug): the `Elapsed(d)` arm of the stop evaluator is
`d > start_time.elapsed()` in both `watch` and `watch_threaded`, so it
signals termination on a tick at which the elapsed time is still below `d`
(here elapsed `0 < 5`), and signals no termination on ticks at which the
elapsed time has reached `d` (here `5, 6, 7 ≥ 5`: the run never stops and
exhausts its environment).  This is the opposite of the claim, of the
spec's `stop once elapsed ≥ d`, and of the `StopCondition::Elapsed` doc
comment `Continues watching until the specified duration of time has
elapsed`. -/
theorem elapsed_condition_inverted :
    stopMet (.elapsed 5) 0 0 0 0 = true ∧
    stopMet (.elapsed 5) 7 0 0 0 = false ∧
    watchInline cfgA delT (.elapsed 5) 0 [⟨0, [], mtErr⟩] =
      some (some ⟨[], [], [], []⟩, []) ∧
    watchInline cfgA delT (.elapsed 5) 0
      [⟨5, [], mtErr⟩, ⟨6, [], mtErr⟩, ⟨7, [], mtErr⟩] = none :=
  ⟨rfl, rfl, rfl, rfl⟩

/-- Claim C2 (code bug): in the pooled variant, the path `a` is observed
and reaches `Claimed`/`Processing` (it is the only tracker entry), but when
the control thread closes the queue (replacing it with `None`, which
discards the still-queued path) before the worker dequeues, the final
report has all four partitions empty: `a` is in no partition, in
particular not in `notProcessed`, so the partitions do not cover the
observed paths. -/
theorem claimed_path_vanishes_from_report :
    (pfinal cfgMat0 delT .once 0 1 ticks2 sched2).files =
      [("a", FileStatus.processing)] ∧
    tResult (pfinal cfgMat0 delT .once 0 1 ticks2 sched2) =
      some (.ok ⟨[], [], [], []⟩) :=
  ⟨rfl, rfl⟩

/-- Claim C3 (code bug): after the stop decision the queue still holds the
enqueued path `b`; the control thread's close step replaces the queue with
`None`, discarding `b`; the worker, observing the closed queue, terminates
immediately rather than draining, and `b` ends up neither processed (both
result maps stay empty) nor reported (its tracker entry is `Processing`,
which report assembly drops). -/
theorem closed_queue_not_drained :
    (pfinal cfgMat0 delT .once 0 1 ticks3 [.ctrl]).queue = some ["b"] ∧
    (pfinal cfgMat0 delT .once 0 1 ticks3 [.ctrl, .ctrl]).queue = none ∧
    (pfinal cfgMat0 delT .once 0 1 ticks3 [.ctrl, .ctrl, .wdeq 0]).workers =
      [WState.done] ∧
    (pfinal cfgMat0 delT .once 0 1 ticks3
      [.ctrl, .ctrl, .wdeq 0]).successes = [] ∧
    (pfinal cfgMat0 delT .once 0 1 ticks3 [.ctrl, .ctrl, .wdeq 0]).errors =
      [] ∧
    (pfinal cfgMat0 delT .once 0 1 ticks3 [.ctrl, .ctrl, .wdeq 0]).files =
      [("b", FileStatus.processing)] :=
  ⟨rfl, rfl, rfl, rfl, rfl, rfl⟩

/-- Claim C4 (code bug): on tick 1 (time 10, threshold 5) the file `a`
matures and is recorded with the terminal status `Processed 1`; on tick 2
the metadata read fails and the `Err` arm's unconditional
`files_seen.insert(file, Skipped(e))` overwrites that terminal status, so
the final report carries `a` in `skipped` and the processed result is
lost, contradicting the claim that a later timestamp-read failure never
overwrites an existing terminal status. -/
theorem skipped_overwrites_terminal :
    (ticksFold cfgA delT [t41] ⟨[], 0⟩).files =
      [("a", FileStatus.processed 1)] ∧
    watchInline cfgA delT (.noNewFilesSince 15) 0 [t41, t42] =
      some (some ⟨[("a", 7)], [], [], []⟩, []) :=
  ⟨rfl, rfl⟩

/-- Claim C5 counterexample: in a single-tick run at wall-clock time 10,
the stored timestamp value of `a` is recorded for the first time on that
very tick, so the wall-clock time elapsed since the tick at which the
tracker last (re)recorded the value is `10 - 10 = 0`, below the threshold
5 — the claim's maturity predicate says the file must not mature — yet the
run processes `a` (it lands in `completed`), because the source compares
the threshold against now minus the file's modification timestamp
(`10 - 0 = 10 ≥ 5`). -/
theorem maturity_clock_claim_false :
    watchInline cfgA delT .once 0 [t41] =
      some (some ⟨[], [], [("a", 1)], []⟩, []) ∧
    maturesSpecClaim t41.now t41.now cfgA.mature_after = false :=
  ⟨rfl, rfl⟩

theorem threadSeen_lookup {T E : Type} (cfg : Config T E) (now : Nat)
    (ts : TState T E) (file : Path) (m : Nat) :
    alLookup file (threadSeen cfg now ts file m).1.files =
      some
        (if m ≤ now ∧ cfg.mature_after ≤ now - m then FileStatus.processing
        else .seen m) ∧
    (threadSeen cfg now ts file m).1.queue =
      (if m ≤ now ∧ cfg.mature_after ≤ now - m then
        ts.queue.map (fun q => q ++ [file])
      else ts.queue) := by
  by_cases hm : m ≤ now
  · by_cases hd : cfg.mature_after ≤ now - m
    · simp [threadSeen, stElapsed, hm, hd, alLookup_alUpdate_self]
    · simp [threadSeen, stElapsed, hm, hd, alLookup_alUpdate_self]
  · simp [threadSeen, stElapsed, hm, alLookup_alUpdate_self]

theorem threadFile_lookup_seen {T E : Type} (cfg : Config T E) (now : Nat)
    (mt : Path → Except IOErr Nat) (ts : TState T E) (file : Path) (m : Nat)
    (hmt : mt file = .ok m)
    (hseen : alLookup file ts.files = none ∨
      ∃ t0, alLookup file ts.files = some (.seen t0)) :
    alLookup file (threadFile cfg now mt ts file).1.files =
      some
        (if m ≤ now ∧ cfg.mature_after ≤ now - m then FileStatus.processing
        else .seen m) ∧
    (threadFile cfg now mt ts file).1.queue =
      (if m ≤ now ∧ cfg.mature_after ≤ now - m then
        ts.queue.map (fun q => q ++ [file])
      else ts.queue) := by
  unfold threadFile
  rw [hmt]
  rcases hseen with hs | ⟨t0, hs⟩ <;> rw [hs] <;>
    exact threadSeen_lookup cfg now ts file m

/-- Claim C5 as amended: for a path that is unseen or `Seen`, the maturity
check of the scan pass — in both the inline dispatcher (`Watcher::watch`)
and the pooled dispatcher's control loop (`Watcher::watch_threaded`),
whose `last_seen.elapsed()` is the same at both sites — compares the
maturation threshold against the difference between the current wall-clock
time and the modification timestamp observed (and stored) this tick: the
file leaves `Seen` exactly when `m ≤ now` (the timestamp is not in the
future, else `SystemTime::elapsed()` fails) and `now - m ≥ mature_after`.
On maturity the inline variant stores the callback's terminal status,
while the pooled variant marks the entry `Processing` and appends the path
to the shared queue; otherwise the entry stays `Seen m` (and, pooled, the
queue is untouched).  Maturity is a now-minus-mtime comparison, not a
comparison against the time of the last (re)recording. -/
theorem maturity_compares_now_minus_mtime {T E : Type} (cfg : Config T E)
    (del : Path → Bool) (now : Nat) (mt : Path → Except IOErr Nat)
    (s : IState T E) (ts : TState T E) (file : Path) (m : Nat)
    (hmt : mt file = .ok m) :
    ((alLookup file s.files = none ∨
        ∃ t0, alLookup file s.files = some (.seen t0)) →
      alLookup file (inlineFile cfg del now mt s file).1.files =
        some
          (if m ≤ now ∧ cfg.mature_after ≤ now - m then
            match cfg.callback file with
            | .ok t => FileStatus.processed t
            | .error e => FileStatus.errored e
          else .seen m))
    ∧ ((alLookup file ts.files = none ∨
        ∃ t0, alLookup file ts.files = some (.seen t0)) →
      alLookup file (threadFile cfg now mt ts file).1.files =
        some
          (if m ≤ now ∧ cfg.mature_after ≤ now - m then
            FileStatus.processing
          else .seen m) ∧
      (threadFile cfg now mt ts file).1.queue =
        (if m ≤ now ∧ cfg.mature_after ≤ now - m then
          ts.queue.map (fun q => q ++ [file])
        else ts.queue)) :=
  ⟨fun hseen => inlineFile_lookup_seen cfg del now mt s file m hmt hseen,
   fun hseen => threadFile_lookup_seen cfg now mt ts file m hmt hseen⟩

/-- Witness for the amended claim C5 at a concrete input: file `a`,
modification time 0, checked at time 10 with threshold 5, in the inline
scan pass and in the pooled control loop's scan pass. -/
theorem maturity_compares_now_minus_mtime_witness :
    (alLookup "a" (inlineFile cfgA delT 10 t41.mtime ⟨[], 0⟩ "a").1.files =
      some
        (if (0 : Nat) ≤ 10 ∧ cfgA.mature_after ≤ 10 - 0 then
          match cfgA.callback "a" with
          | .ok t => FileStatus.processed t
          | .error e => FileStatus.errored e
        else .seen 0))
    ∧ (alLookup "a" (threadFile cfgA 10 t41.mtime (tInit 1 [] 0) "a").1.files
        =
        some
          (if (0 : Nat) ≤ 10 ∧ cfgA.mature_after ≤ 10 - 0 then
            FileStatus.processing
          else .seen 0) ∧
      (threadFile cfgA 10 t41.mtime (tInit 1 [] 0) "a").1.queue =
        (if (0 : Nat) ≤ 10 ∧ cfgA.mature_after ≤ 10 - 0 then
          (tInit 1 [] 0 : TState Nat Nat).queue.map (fun q => q ++ ["a"])
        else (tInit 1 [] 0 : TState Nat Nat).queue)) :=
  ⟨(maturity_compares_now_minus_mtime cfgA delT 10 t41.mtime ⟨[], 0⟩
      (tInit 1 [] 0) "a" 0 rfl).1 (Or.inl rfl),
   (maturity_compares_now_minus_mtime cfgA delT 10 t41.mtime ⟨[], 0⟩
      (tInit 1 [] 0) "a" 0 rfl).2 (Or.inl rfl)⟩

/-- Claim C6: with stop condition `FilesFound n`, (inline) a run that
returns halts on the first tick at which the count of `Processed` tracker
entries reaches `n`, and the returned report has at least `n` completed
entries (possibly more when several files mature in that tick); (pooled)
whenever the control thread has left its polling loop the shared success
map holds at least `n` entries — it breaks only on a tick whose success
count reached `n`, and the count never shrinks — so any assembled report
has at least `n` completed entries. -/
theorem filesFound_halts_first_and_completed_ge {T E : Type}
    (cfg : Config T E) (del : Path → Bool) (n start : Nat)
    (ticks : List Tick) :
    (∀ (rep : FileResults T E) (lg : List String),
      watchInline cfg del (.filesFound n) start ticks = some (some rep, lg) →
      n ≤ rep.completed.length ∧
      ∃ k, 0 < k ∧ k ≤ ticks.length ∧
        n ≤ processedCount
          (ticksFold cfg del (ticks.take k) ⟨[], start⟩).files ∧
        ∀ j, 0 < j → j < k →
          processedCount
            (ticksFold cfg del (ticks.take j) ⟨[], start⟩).files < n)
    ∧ (∀ (numW : Nat) (sched : List Action),
        ((pfinal cfg del (.filesFound n) start numW ticks sched).phase ≠
            Phase.looping →
          n ≤ (pfinal cfg del (.filesFound n) start numW ticks
            sched).successes.length)
        ∧ ∀ rep : FileResults T E,
            tResult (pfinal cfg del (.filesFound n) start numW ticks sched) =
              some (.ok rep) →
            n ≤ rep.completed.length) := by
  constructor
  · intro rep lg h
    unfold watchInline at h
    rw [Option.map_eq_some'] at h
    obtain ⟨x, hx, hfx⟩ := h
    have hb : buildInline x.1.files = some rep := congrArg Prod.fst hfx
    obtain ⟨k, hk0, hkle, hfiles, hge, hlt⟩ :=
      watchAux_filesFound cfg del n start ticks ⟨[], start⟩ [] x.1 x.2
        (by rw [← hx])
    refine ⟨?_, k, hk0, hkle, hge, hlt⟩
    rw [buildInline_completed_length x.1.files rep hb, hfiles]
    exact hge
  · intro numW sched
    constructor
    · intro hphase
      rcases prun_break cfg del n start sched (tInit numW ticks start)
          (Or.inl rfl) with h | h
      · exact absurd h hphase
      · exact h
    · intro rep hres
      have hfin : (pfinal cfg del (.filesFound n) start numW ticks
          sched).phase = Phase.finished := by
        by_contra hne
        unfold tResult at hres
        rw [if_neg hne] at hres
        exact absurd hres (by simp)
      have hlen : n ≤ (pfinal cfg del (.filesFound n) start numW ticks
          sched).successes.length := by
        rcases prun_break cfg del n start sched (tInit numW ticks start)
            (Or.inl rfl) with h | h
        · exact absurd (hfin.symm.trans h) (by decide)
        · exact h
      unfold tResult at hres
      rw [if_pos hfin] at hres
      injection hres with hres
      by_cases hsp : (pfinal cfg del (.filesFound n) start numW ticks
          sched).spois = true
      · rw [if_pos hsp] at hres
        exact absurd hres (by simp)
      · rw [if_neg hsp] at hres
        by_cases hep : (pfinal cfg del (.filesFound n) start numW ticks
            sched).epois = true
        · rw [if_pos hep] at hres
          exact absurd hres (by simp)
        · rw [if_neg hep] at hres
          rcases hsplit : splitThreaded (pfinal cfg del (.filesFound n)
              start numW ticks sched).files with _ | x
          · rw [hsplit] at hres
            exact absurd hres (by simp)
          · rw [hsplit] at hres
            injection hres with hres
            rw [← hres]
            exact hlen

/-- Witness for claim C6: the inline run `ticks6i` with `FilesFound 1`
returns a report with one completed entry; the pooled run under schedule
`sched6` has left the polling loop with one success recorded, and under
`sched6f` assembles a report with one completed entry. -/
theorem filesFound_halts_first_witness :
    1 ≤ rep6.completed.length ∧
    1 ≤ (pfinal cfgMat0 delT (.filesFound 1) 0 1 ticks6
      sched6).successes.length ∧
    1 ≤ rep6.completed.length :=
  ⟨((filesFound_halts_first_and_completed_ge cfgMat0 delT 1 0 ticks6i).1
      rep6 [] rfl).1,
   ((filesFound_halts_first_and_completed_ge cfgMat0 delT 1 0 ticks6).2
      1 sched6).1 (by decide),
   ((filesFound_halts_first_and_completed_ge cfgMat0 delT 1 0 ticks6).2
      1 sched6f).2 rep6 rfl⟩

/-- Claim C7: if a worker's attempt to lock a shared result map failed
(`lock()` on a `Mutex` fails exactly when the mutex is poisoned, i.e. the
`Unable to save` arms of `Processor::process` ran), then the watch
invocation never returns a report: poisoning is permanent, and the
control thread's `into_inner().unwrap()` at report assembly panics on the
poisoned mutex, so the invocation fails fatally rather than silently
returning a report from which that file's result was dropped. -/
theorem poisoned_result_lock_fatal {T E : Type} (cfg : Config T E)
    (del : Path → Bool) (cond : StopCondition) (start numW : Nat)
    (ticks : List Tick) (sched : List Action)
    (h : (pfinal cfg del cond start numW ticks sched).lockFailed = true) :
    ∀ rep : FileResults T E,
      tResult (pfinal cfg del cond start numW ticks sched) ≠
        some (.ok rep) := by
  intro rep hres
  have hpois : (pfinal cfg del cond start numW ticks sched).spois = true ∨
      (pfinal cfg del cond start numW ticks sched).epois = true :=
    prun_lock cfg del cond start sched (tInit numW ticks start)
      (fun hl => absurd hl (by simp [tInit])) h
  unfold tResult at hres
  by_cases hfin : (pfinal cfg del cond start numW ticks sched).phase =
      Phase.finished
  · rw [if_pos hfin] at hres
    injection hres with hres
    by_cases hsp : (pfinal cfg del cond start numW ticks sched).spois = true
    · rw [if_pos hsp] at hres
      exact absurd hres (by simp)
    · rw [if_neg hsp] at hres
      rcases hpois with hp | hp
      · exact absurd hp hsp
      · rw [if_pos hp] at hres
        exact absurd hres (by simp)
  · rw [if_neg hfin] at hres
    exact absurd hres (by simp)

/-- Witness for claim C7: under `sched7`, worker 0 panics inside the
successes critical section and worker 1 then fails to lock the successes
map (`lockFailed` is set); the invocation can never return the empty
report (or any report). -/
theorem poisoned_result_lock_fatal_witness :
    (pfinal cfgMat0 delT (.filesFound 5) 0 2 ticks7 sched7).lockFailed =
      true ∧
    tResult (pfinal cfgMat0 delT (.filesFound 5) 0 2 ticks7 sched7) ≠
      some (.ok ⟨[], [], [], []⟩) :=
  ⟨by decide,
   poisoned_result_lock_fatal cfgMat0 delT (.filesFound 5) 0 2 ticks7
     sched7 (by decide) ⟨[], [], [], []⟩⟩

/-- Claim C8: when the callback succeeds with delete-on-completion enabled
and the subsequent deletion fails, the recorded outcome is unchanged:
(inline) the tracker entry becomes `Processed t`; (pooled) the worker
records `t` into the success map and leaves the error map untouched; and
(report) a tracker entry `Processed t` lands in the report's `completed`
partition and the path is absent from `errored`. -/
theorem deletion_failure_keeps_processed {T E : Type} (cfg : Config T E)
    (del : Path → Bool) (now : Nat) (mt : Path → Except IOErr Nat)
    (s : IState T E) (ts : TState T E) (file : Path) (m : Nat) (t : T)
    (i : Nat) (fs : List (Path × FileStatus T E)) (rep : FileResults T E) :
    ((mt file = .ok m → cfg.callback file = .ok t →
      cfg.delete_on_completion = true → del file = false →
      (alLookup file s.files = none ∨
        ∃ t0, alLookup file s.files = some (.seen t0)) →
      m ≤ now → cfg.mature_after ≤ now - m →
      alLookup file (inlineFile cfg del now mt s file).1.files =
        some (.processed t)))
    ∧ (ts.workers.get? i = some (.hasInput file) →
       cfg.callback file = .ok t → ts.spois = false →
       cfg.delete_on_completion = true → del file = false →
       alLookup file (wprocStep cfg del ts i).1.successes = some t ∧
       (wprocStep cfg del ts i).1.errors = ts.errors)
    ∧ (buildInline fs = some rep →
       alLookup file fs = some (.processed t) →
       (fs.map Prod.fst).Nodup →
       (file, t) ∈ rep.completed ∧ alLookup file rep.errored = none) := by
  refine ⟨?_, ?_, ?_⟩
  · intro hmt hcb hdoc hdel hseen hm hmat
    rw [inlineFile_lookup_seen cfg del now mt s file m hmt hseen,
      if_pos ⟨hm, hmat⟩, hcb]
  · intro hw hcb hsp hdoc hdel
    have hsp2 : ¬ts.spois = true := by simp [hsp]
    unfold wprocStep
    simp only [hw, hcb]
    rw [if_neg hsp2]
    exact ⟨alLookup_alUpdate_self file t ts.successes, rfl⟩
  · intro hb hl hnd
    induction fs generalizing rep with
    | nil => simp [alLookup] at hl
    | cons q rest ih =>
        obtain ⟨p0, st0⟩ := q
        simp only [buildInline, Option.bind_eq_some] at hb
        obtain ⟨r0, hr0, hm0⟩ := hb
        simp only [alLookup] at hl
        simp only [List.map_cons, List.nodup_cons] at hnd
        by_cases hpq : file = p0
        · rw [if_pos hpq] at hl
          injection hl with hl
          subst hl
          injection hm0 with hm0
          subst hm0
          constructor
          · rw [hpq]
            exact List.mem_cons_self _ _
          · apply alLookup_eq_none_of_not_mem
            intro hmem
            obtain ⟨x, hx, hx1⟩ := List.mem_map.mp hmem
            have hk := buildInline_errored_keys rest r0 hr0 x hx
            rw [hx1] at hk
            exact hnd.1 (hpq ▸ hk)
        · rw [if_neg hpq] at hl
          obtain ⟨hc1, hc2⟩ := ih r0 hr0 hl hnd.2
          cases st0 with
          | skipped e =>
              injection hm0 with hm0
              subst hm0
              exact ⟨hc1, hc2⟩
          | seen t0 =>
              injection hm0 with hm0
              subst hm0
              exact ⟨hc1, hc2⟩
          | processing => exact absurd hm0 (by simp)
          | processed t0 =>
              injection hm0 with hm0
              subst hm0
              exact ⟨List.mem_cons_of_mem _ hc1, hc2⟩
          | errored e0 =>
              injection hm0 with hm0
              subst hm0
              refine ⟨hc1, ?_⟩
              simp only [alLookup, if_neg hpq]
              exact hc2

/-- Witness for claim C8 at concrete inputs: callback success value 1 for
file `a`, delete-on-completion enabled (`cfgDel`), deletion failing
(`delF`), in the inline scan pass, in a pooled worker's record step, and
through report building. -/
theorem deletion_failure_keeps_processed_witness :
    alLookup "a" (inlineFile cfgDel delF 10 t41.mtime ⟨[], 0⟩ "a").1.files =
      some (FileStatus.processed 1) ∧
    (alLookup "a" (wprocStep cfgDel delF tsW 0).1.successes = some 1 ∧
      (wprocStep cfgDel delF tsW 0).1.errors = tsW.errors) ∧
    (("a", 1) ∈ repC8.completed ∧ alLookup "a" repC8.errored = none) := by
  obtain ⟨h1, h2, h3⟩ := deletion_failure_keeps_processed cfgDel delF 10
    t41.mtime ⟨[], 0⟩ tsW "a" 0 1 0 [("a", FileStatus.processed 1)] repC8
  exact ⟨h1 rfl rfl rfl rfl (Or.inl rfl) (by decide) (by decide),
    h2 rfl rfl rfl rfl rfl, h3 rfl rfl (by decide)⟩

/-- Claim C9: the returned data of a watch invocation is independent of
the `verbose` flag, which gates only the emitted diagnostic text: for any
two verbosity settings, the inline run's returned `FileResults` (the log
component stripped) and the pooled run's entire shared state under any
schedule are equal. -/
theorem verbose_no_effect_on_results {T E : Type} (cfg : Config T E)
    (v1 v2 : Bool) (del : Path → Bool) (cond : StopCondition)
    (start numW : Nat) (ticks : List Tick) (sched : List Action) :
    (watchInline { cfg with verbose := v1 } del cond start ticks).map
        Prod.fst =
      (watchInline { cfg with verbose := v2 } del cond start ticks).map
        Prod.fst
    ∧ (prun { cfg with verbose := v1 } del cond start sched
          (tInit numW ticks start)).1 =
        (prun { cfg with verbose := v2 } del cond start sched
          (tInit numW ticks start)).1 := by
  constructor
  · have h := watchAux_map_fst_congr { cfg with verbose := v1 }
      { cfg with verbose := v2 } rfl rfl del cond start ticks ⟨[], start⟩
      [] []
    unfold watchInline
    rcases h1 : watchAux { cfg with verbose := v1 } del cond start ticks
        ⟨[], start⟩ [] with _ | x1 <;>
      rcases h2 : watchAux { cfg with verbose := v2 } del cond start ticks
        ⟨[], start⟩ [] with _ | x2 <;>
      rw [h1, h2] at h
    all_goals simp_all
  · exact prun_fst_congr { cfg with verbose := v1 }
      { cfg with verbose := v2 } rfl rfl del cond start sched
      (tInit numW ticks start)

theorem threadSeen_pending_shift {T E : Type} (cfg : Config T E)
    (now : Nat) (s : TState T E) (p : List Tick) (file : Path) (m : Nat) :
    threadSeen cfg now { s with pending := p } file m =
      ({ (threadSeen cfg now s file m).1 with pending := p },
        (threadSeen cfg now s file m).2) := by
  unfold threadSeen
  rcases h : stElapsed now m with _ | d <;> try simp only [h] <;> try rfl
  by_cases hd : cfg.mature_after ≤ d
  · rw [if_pos hd, if_pos hd]
  · rw [if_neg hd, if_neg hd]

theorem threadFile_pending_shift {T E : Type} (cfg : Config T E)
    (now : Nat) (mt : Path → Except IOErr Nat) (s : TState T E)
    (p : List Tick) (file : Path) :
    threadFile cfg now mt { s with pending := p } file =
      ({ (threadFile cfg now mt s file).1 with pending := p },
        (threadFile cfg now mt s file).2) := by
  unfold threadFile
  rcases h : mt file with e | m
  · rfl
  · rcases hl : alLookup file s.files with _ | st
    · exact threadSeen_pending_shift cfg now s p file m
    · cases st <;>
        first
        | exact threadSeen_pending_shift cfg now s p file m
        | rfl

theorem scanFold_pending_shift {T E : Type} (cfg : Config T E)
    (now : Nat) (mt : Path → Except IOErr Nat) :
    ∀ (l : List Path) (s : TState T E) (p : List Tick),
      logFold (fun st file => threadFile cfg now mt st file) l
          { s with pending := p } =
        ({ (logFold (fun st file => threadFile cfg now mt st file) l s).1
            with pending := p },
          (logFold (fun st file => threadFile cfg now mt st file) l s).2)
  | [], _, _ => rfl
  | x :: xs, s, p => by
      simp only [logFold]
      rw [threadFile_pending_shift]
      rw [scanFold_pending_shift cfg now mt xs
        (threadFile cfg now mt s x).1 p]

theorem scanFold_pending_only {T E : Type} (cfg : Config T E) (now : Nat)
    (mt : Path → Except IOErr Nat) (l : List Path)
    (q : Option (List Path)) (sp ep : Bool) (su : List (Path × T))
    (er : List (Path × E)) (fi : List (Path × FileStatus T E)) (ne : Nat)
    (wo : List WState) (ph : Phase) (p1 p2 : List Tick) (lf : Bool) :
    logFold (fun st file => threadFile cfg now mt st file) l
        ⟨q, sp, ep, su, er, fi, ne, wo, ph, p1, lf⟩ =
      ({ (logFold (fun st file => threadFile cfg now mt st file) l
            ⟨q, sp, ep, su, er, fi, ne, wo, ph, p2, lf⟩).1
          with pending := p1 },
        (logFold (fun st file => threadFile cfg now mt st file) l
          ⟨q, sp, ep, su, er, fi, ne, wo, ph, p2, lf⟩).2) :=
  scanFold_pending_shift cfg now mt l ⟨q, sp, ep, su, er, fi, ne, wo, ph, p2, lf⟩ p1

/-- Claim C10: a per-entry error in the glob expansion is silently
discarded by `.flatten()`: a scan pass (inline tick, or the control
thread's step on a pending tick in the pooled variant) over an expansion
containing an `Err` entry is identical — tracker state, queue, logs and
all — to the scan pass with that entry removed; in particular no tracker
entry is created for it, so it can appear in no report partition. -/
theorem glob_entry_errors_discarded {T E : Type} (cfg : Config T E)
    (del : Path → Bool) (now : Nat) (mt : Path → Except IOErr Nat)
    (es1 es2 : List (Except GlobErr Path)) (g : GlobErr)
    (s : IState T E) (ts : TState T E) (cond : StopCondition)
    (start : Nat) (rest : List Tick) :
    inlineTick cfg del ⟨now, es1 ++ .error g :: es2, mt⟩ s =
      inlineTick cfg del ⟨now, es1 ++ es2, mt⟩ s
    ∧ (ts.phase = Phase.looping →
        ctrlStep cfg cond start
            { ts with pending := ⟨now, es1 ++ .error g :: es2, mt⟩ :: rest } =
          ctrlStep cfg cond start
            { ts with pending := ⟨now, es1 ++ es2, mt⟩ :: rest }) := by
  have hfe : flattenEntries (es1 ++ .error g :: es2) =
      flattenEntries (es1 ++ es2) := by
    rw [flattenEntries_append, flattenEntries_append]
    rfl
  constructor
  · show logFold (fun st file => inlineFile cfg del now mt st file)
        (flattenEntries (es1 ++ .error g :: es2)) s =
      logFold (fun st file => inlineFile cfg del now mt st file)
        (flattenEntries (es1 ++ es2)) s
    rw [hfe]
  · intro hphase
    simp only [ctrlStep, hphase]
    rw [hfe]
    rw [scanFold_pending_only cfg now mt (flattenEntries (es1 ++ es2))
        ts.queue ts.spois ts.epois ts.successes ts.errors ts.files
        ts.newest ts.workers Phase.looping
        (⟨now, es1 ++ .error g :: es2, mt⟩ :: rest)
        (⟨now, es1 ++ es2, mt⟩ :: rest) ts.lockFailed,
      scanFold_pending_only cfg now mt (flattenEntries (es1 ++ es2))
        ts.queue ts.spois ts.epois ts.successes ts.errors ts.files
        ts.newest ts.workers Phase.looping
        (⟨now, es1 ++ es2, mt⟩ :: rest)
        (⟨now, es1 ++ es2, mt⟩ :: rest) ts.lockFailed]

/-- Witness for claim C10 on concrete inputs: an expansion consisting of
just one error entry behaves exactly like the empty expansion, for the
inline tick and for the pooled control step from the initial state. -/
theorem glob_entry_errors_discarded_witness :
    inlineTick cfgA delT ⟨3, [] ++ Except.error 9 :: [], mtErr⟩ ⟨[], 0⟩ =
      inlineTick cfgA delT ⟨3, [] ++ [], mtErr⟩ ⟨[], 0⟩ ∧
    ctrlStep cfgA StopCondition.once 0
        { tInit 1 [] 0 with
            pending := ⟨3, [] ++ Except.error 9 :: [], mtErr⟩ :: [] } =
      ctrlStep cfgA StopCondition.once 0
        { tInit 1 [] 0 with pending := ⟨3, [] ++ [], mtErr⟩ :: [] } :=
  ⟨(glob_entry_errors_discarded cfgA delT 3 mtErr [] [] 9 ⟨[], 0⟩
      (tInit 1 [] 0) .once 0 []).1,
   (glob_entry_errors_discarded cfgA delT 3 mtErr [] [] 9 ⟨[], 0⟩
      (tInit 1 [] 0) .once 0 []).2 rfl⟩

end WatchFiles
